import Mathlib

/-!
Verification of the xoshiro++ PRNG family in this repository (X256PP.hh,
X128PP.hh, PRNG.hh) and of the 4x4 matrix-inverse utility (minv4.c).

Machine words are embedded as `Nat` with explicit reduction modulo `2 ^ W`
(the sources clamp with a bitwise AND against `result_max = 2 ^ W - 1`;
the host integer types `uint_fast32_t` / `uint_fast64_t` are at least
W bits wide, so unclamped intermediates are faithfully represented by
unbounded naturals).  A generator state is a 4-tuple of lanes.
-/

/-- Generator state: four unsigned lanes (lane0, lane1, lane2, lane3). -/
abbrev RState := Nat × Nat × Nat × Nat

/-- Lane-wise xor of two states. -/
def xorL : RState → RState → RState
  | (a0, a1, a2, a3), (b0, b1, b2, b3) =>
    (a0 ^^^ b0, a1 ^^^ b1, a2 ^^^ b2, a3 ^^^ b3)

/-- The all-zero state. -/
def zeroS : RState := (0, 0, 0, 0)

/-- All four lanes fit in W bits. -/
def inBW (W : Nat) (s : RState) : Prop :=
  s.1 < 2 ^ W ∧ s.2.1 < 2 ^ W ∧ s.2.2.1 < 2 ^ W ∧ s.2.2.2 < 2 ^ W

instance (W : Nat) (s : RState) : Decidable (inBW W s) := by
  unfold inBW; infer_instance

/-! Basic bit-manipulation lemmas used throughout. -/

/-- Reduction mod a power of two distributes over xor. -/
theorem mod_two_pow_xor (a b W : Nat) :
    (a ^^^ b) % 2 ^ W = (a % 2 ^ W) ^^^ (b % 2 ^ W) := by
  rw [← Nat.and_pow_two_sub_one_eq_mod, ← Nat.and_pow_two_sub_one_eq_mod,
    ← Nat.and_pow_two_sub_one_eq_mod, Nat.and_xor_distrib_right]

/-- Left shift distributes over xor. -/
theorem shiftLeft_xor_distrib (a b k : Nat) :
    (a ^^^ b) <<< k = (a <<< k) ^^^ (b <<< k) := by
  apply Nat.eq_of_testBit_eq
  intro i
  simp [Bool.and_xor_distrib_left]

/-- Right shift distributes over xor. -/
theorem shiftRight_xor_distrib (a b k : Nat) :
    (a ^^^ b) >>> k = (a >>> k) ^^^ (b >>> k) := by
  apply Nat.eq_of_testBit_eq
  intro i
  simp

/-- On disjoint bit patterns, bitwise or coincides with xor. -/
theorem or_eq_xor_of_and_eq_zero {a b : Nat} (h : a &&& b = 0) :
    a ||| b = a ^^^ b := by
  apply Nat.eq_of_testBit_eq
  intro i
  have hb := congrArg (fun n => Nat.testBit n i) h
  simp only [Nat.testBit_and, Nat.zero_testBit] at hb
  simp only [Nat.testBit_or, Nat.testBit_xor]
  cases hxa : Nat.testBit a i <;> cases hxb : Nat.testBit b i <;> simp_all

/-- A multiple of 2^k shares no bits with a value below 2^k. -/
theorem and_eq_zero_of_dvd_of_lt {a b k : Nat} (ha : 2 ^ k ∣ a) (hb : b < 2 ^ k) :
    a &&& b = 0 := by
  have h1 : b = b % 2 ^ k := (Nat.mod_eq_of_lt hb).symm
  rw [h1, ← Nat.and_pow_two_sub_one_eq_mod, Nat.and_comm b, ← Nat.and_assoc,
    Nat.and_pow_two_sub_one_eq_mod, Nat.mod_eq_zero_of_dvd ha, Nat.zero_and]

/-- Left-commutativity of xor on naturals. -/
theorem nat_xor_left_comm (a b c : Nat) : a ^^^ (b ^^^ c) = b ^^^ (a ^^^ c) := by
  rw [← Nat.xor_assoc, Nat.xor_comm a b, Nat.xor_assoc]

/-! Spec-side primitives, written from the specification's words:
canonical W-bit rotate and the canonical xoshiro++ recurrence. -/

/-- Canonical rotate-left of a W-bit word (the argument is first reduced
    mod 2^W, and the result is a W-bit word). -/
def rotW (W u k : Nat) : Nat :=
  (((u % 2 ^ W) <<< k) ||| ((u % 2 ^ W) >>> (W - k))) % 2 ^ W

/-- Canonical xoshiro state transition with width W, shift S, rotation R2,
    transcribed from the specification: t = (lane1 << S) mod 2^W;
    lane2 ^= lane0; lane3 ^= lane1; lane1 ^= lane2; lane0 ^= lane3;
    lane2 ^= t; lane3 = rotate_left(lane3, R2). -/
def stepW (W S R2 : Nat) : RState → RState
  | (s0, s1, s2, s3) =>
    let t := (s1 <<< S) % 2 ^ W
    let s2a := s2 ^^^ s0
    let s3a := s3 ^^^ s1
    let s1a := s1 ^^^ s2a
    let s0a := s0 ^^^ s3a
    let s2b := s2a ^^^ t
    let s3b := rotW W s3a R2
    (s0a, s1a, s2b, s3b)

/-- Canonical xoshiro++ output word with width W and rotation R1:
    rotate_left(lane0 + lane3, R1) + lane0, reduced mod 2^W. -/
def outW (W R1 : Nat) : RState → Nat
  | (s0, _, _, s3) => (rotW W (s0 + s3) R1 + s0) % 2 ^ W

/-! Shared jump-engine shape.  The bodies of X256PP::jump / X256PP::long_jump /
X128PP::jump / X128PP::long_jump / GL0::PRNG::jump / GL0::PRNG::long_jump are
textually identical up to the lane width and the coefficient table, so the
loop structure is embedded once and instantiated per class. -/

/-- Inner loop of the jump functions: `for (int b = 0; b < W; operator () (), b++)`
    starting at bit index b with n iterations remaining.  The pair carries
    (jbuf, state); when bit b of the coefficient word j is set the current
    state is xor-ed into jbuf, and the state advances by one generator call
    in every iteration. -/
def bitLoop (T : RState → RState) (j : Nat) : Nat → Nat → RState × RState → RState × RState
  | _, 0, p => p
  | b, n + 1, (jbuf, s) =>
    bitLoop T j (b + 1) n ((if j &&& (1 <<< b) ≠ 0 then xorL jbuf s else jbuf), T s)

/-- Outer loop of the jump functions: fold the inner loop over the four
    coefficient words, then replace the state with the accumulator. -/
def jumpEngine (T : RState → RState) (W : Nat) (tab : List Nat) (s : RState) : RState :=
  (tab.foldl (fun p j => bitLoop T j 0 W p) (zeroS, s)).1

/-! Embedding of class X256PP (X256PP.hh): 64-bit lanes. -/

namespace X256PP

/-- X256PP::result_max. -/
def result_max : Nat := 0xffffffffffffffff

/-- X256PP::min. -/
def min : Nat := 0

/-- X256PP::max. -/
def max : Nat := result_max

/-- X256PP::clamp. -/
def clamp (u : Nat) : Nat := u &&& result_max

/-- X256PP::rol: the argument is clamped, k is reduced mod 64, and a zero
    rotation returns the clamped argument unchanged. -/
def rol (u k : Nat) : Nat :=
  let u2 := clamp u
  let k2 := k % 64
  if k2 = 0 then u2 else clamp ((u2 <<< k2) ||| (u2 >>> (64 - k2)))

/-- X256PP::operator(): returns (output word, successor state). -/
def next : RState → Nat × RState
  | (s0, s1, s2, s3) =>
    let r := rol (s0 + s3) 23 + s0
    let t := clamp (s1 <<< 17)
    let s2a := s2 ^^^ s0
    let s3a := s3 ^^^ s1
    let s1a := s1 ^^^ s2a
    let s0a := s0 ^^^ s3a
    let s2b := s2a ^^^ t
    let s3b := rol s3a 45
    (clamp r, (s0a, s1a, s2b, s3b))

/-- State part of one generator call. -/
def step (s : RState) : RState := (next s).2

/-- Output part of one generator call. -/
def out (s : RState) : Nat := (next s).1

/-- Stafford Mix13 variant, X256PP::mix. -/
def mix (u : Nat) : Nat :=
  let u1 := clamp u
  let u2 := u1 ^^^ (u1 >>> 30)
  let u3 := clamp (u2 * 0xbf58476d1ce4e5b9)
  let u4 := u3 ^^^ (u3 >>> 27)
  let u5 := clamp (u4 * 0x94d049bb133111eb)
  let u6 := u5 ^^^ (u5 >>> 31)
  u6

/-- Splitmix seed expansion, X256PP::init.  The seed accumulator wraps at
    the 64-bit host width; mix clamps its input, so the lanes agree for any
    admissible (wider) host integer type. -/
def initState (seed : Nat) : RState :=
  let a1 := (seed + 0x9e3779b97f4a7c15) % 2 ^ 64
  let a2 := (a1 + 0x9e3779b97f4a7c15) % 2 ^ 64
  let a3 := (a2 + 0x9e3779b97f4a7c15) % 2 ^ 64
  let a4 := (a3 + 0x9e3779b97f4a7c15) % 2 ^ 64
  (mix a1, mix a2, mix a3, mix a4)

/-- X256PP::init(std::random_device &): each lane is one draw of the
    uniform_int_distribution on [0, max]; the device is modelled as a
    stream of draws. -/
def initRandom (f : Nat → Nat) : RState := (f 0, f 1, f 2, f 3)

/-- Coefficient table of X256PP::jump. -/
def jtab : List Nat :=
  [0x180ec6d33cfd0aba, 0xd5a61266f0c9392c, 0xa9582618e03fc9aa, 0x39abdc4529b1661c]

/-- Coefficient table of X256PP::long_jump. -/
def ljtab : List Nat :=
  [0x76e15d3efefdcbbf, 0xc5004e441c522fb3, 0x77710069854ee241, 0x39109bb02acbe635]

/-- X256PP::jump. -/
def jump (s : RState) : RState := jumpEngine step 64 jtab s

/-- X256PP::long_jump. -/
def long_jump (s : RState) : RState := jumpEngine step 64 ljtab s

end X256PP

/-! Embedding of class X128PP (X128PP.hh): 32-bit lanes. -/

namespace X128PP

/-- X128PP::result_max. -/
def result_max : Nat := 0xffffffff

/-- X128PP::min. -/
def min : Nat := 0

/-- X128PP::max. -/
def max : Nat := result_max

/-- X128PP::clamp. -/
def clamp (u : Nat) : Nat := u &&& result_max

/-- X128PP::rotl.  In the source the right-shift amount is the int
    expression `(- k) & 31`, which for 0 ≤ k ≤ 31 equals (32 - k) % 32 in
    two's complement. -/
def rotl (u k : Nat) : Nat :=
  clamp (u <<< k) ||| (clamp u >>> ((32 - k) % 32))

/-- X128PP::operator(): returns (output word, successor state). -/
def next : RState → Nat × RState
  | (s0, s1, s2, s3) =>
    let r := rotl (s0 + s3) 7 + s0
    let t := clamp (s1 <<< 9)
    let s2a := s2 ^^^ s0
    let s3a := s3 ^^^ s1
    let s1a := s1 ^^^ s2a
    let s0a := s0 ^^^ s3a
    let s2b := s2a ^^^ t
    let s3b := rotl s3a 11
    (clamp r, (s0a, s1a, s2b, s3b))

/-- State part of one generator call. -/
def step (s : RState) : RState := (next s).2

/-- Output part of one generator call. -/
def out (s : RState) : Nat := (next s).1

/-- The triple32inc hash, X128PP::mix. -/
def mix (u : Nat) : Nat :=
  let u1 := clamp (u + 1)
  let u2 := clamp ((u1 ^^^ (u1 >>> 17)) * 0xed5ad4bb)
  let u3 := clamp ((u2 ^^^ (u2 >>> 11)) * 0xac4c1b51)
  let u4 := clamp ((u3 ^^^ (u3 >>> 15)) * 0x31848bab)
  u4 ^^^ (u4 >>> 14)

/-- Splitmix seed expansion, X128PP::seed. -/
def seedState (s : Nat) : RState :=
  let a1 := clamp (s + 0x9e3779b9)
  let a2 := clamp (a1 + 0x9e3779b9)
  let a3 := clamp (a2 + 0x9e3779b9)
  let a4 := clamp (a3 + 0x9e3779b9)
  (mix a1, mix a2, mix a3, mix a4)

/-- Coefficient table of X128PP::jump. -/
def jtab : List Nat := [0x8764000b, 0xf542d2d3, 0x6fa035c3, 0x77f2db5b]

/-- Coefficient table of X128PP::long_jump. -/
def ljtab : List Nat := [0xb523952e, 0x0b6f099f, 0xccf5a0ef, 0x1c580662]

/-- X128PP::jump. -/
def jump (s : RState) : RState := jumpEngine step 32 jtab s

/-- X128PP::long_jump. -/
def long_jump (s : RState) : RState := jumpEngine step 32 ljtab s

/-- X128PP::init(std::random_device &), branch for a source narrower than
    32 bits: consecutive draws f 0, f 1, ... are taken in pairs (lo first),
    and each lane is mix((hi << 16) | (lo & 0xffff)). -/
def initNarrow (f : Nat → Nat) : RState :=
  (mix ((f 1 <<< 16) ||| (f 0 &&& 0xffff)),
   mix ((f 3 <<< 16) ||| (f 2 &&& 0xffff)),
   mix ((f 5 <<< 16) ||| (f 4 &&& 0xffff)),
   mix ((f 7 <<< 16) ||| (f 6 &&& 0xffff)))

/-- X128PP::init(std::random_device &), branch for a source of at least
    32 bits: each lane is mix(draw). -/
def initWide (f : Nat → Nat) : RState :=
  (mix (f 0), mix (f 1), mix (f 2), mix (f 3))

end X128PP

/-! Embedding of class GL0::PRNG (PRNG.hh): 32-bit lanes. -/

namespace GL0

/-- GL0::PRNG::result_max. -/
def result_max : Nat := 0xffffffff

/-- GL0::PRNG::min. -/
def min : Nat := 0

/-- GL0::PRNG::max. -/
def max : Nat := result_max

/-- GL0::PRNG::clamp. -/
def clamp (u : Nat) : Nat := u &&& result_max

/-- GL0::PRNG::rol.  In the source the shift amounts are the int
    expressions `k & 31` and `(- k) & 31`; for 0 ≤ k the latter equals
    (32 - k % 32) % 32 in two's complement. -/
def rol (u k : Nat) : Nat :=
  let u2 := clamp u
  clamp ((u2 <<< (k &&& 31)) ||| (u2 >>> ((32 - k % 32) % 32)))

/-- GL0::PRNG::operator(): returns (output word, successor state). -/
def next : RState → Nat × RState
  | (s0, s1, s2, s3) =>
    let r := rol (s0 + s3) 7 + s0
    let t := clamp (s1 <<< 9)
    let s2a := s2 ^^^ s0
    let s3a := s3 ^^^ s1
    let s1a := s1 ^^^ s2a
    let s0a := s0 ^^^ s3a
    let s2b := s2a ^^^ t
    let s3b := rol s3a 11
    (clamp r, (s0a, s1a, s2b, s3b))

/-- State part of one generator call. -/
def step (s : RState) : RState := (next s).2

/-- Output part of one generator call. -/
def out (s : RState) : Nat := (next s).1

/-- The triple32 hash, GL0::PRNG::mix. -/
def mix (u : Nat) : Nat :=
  let u1 := clamp u
  let u2 := clamp ((u1 ^^^ (u1 >>> 17)) * 0xed5ad4bb)
  let u3 := clamp ((u2 ^^^ (u2 >>> 11)) * 0xac4c1b51)
  let u4 := clamp ((u3 ^^^ (u3 >>> 15)) * 0x31848bab)
  u4 ^^^ (u4 >>> 14)

/-- Splitmix seed expansion, GL0::PRNG::seed. -/
def seedState (s : Nat) : RState :=
  let a1 := clamp (s + 0x9e3779b9)
  let a2 := clamp (a1 + 0x9e3779b9)
  let a3 := clamp (a2 + 0x9e3779b9)
  let a4 := clamp (a3 + 0x9e3779b9)
  (mix a1, mix a2, mix a3, mix a4)

/-- Coefficient table of GL0::PRNG::jump. -/
def jtab : List Nat := [0x8764000b, 0xf542d2d3, 0x6fa035c3, 0x77f2db5b]

/-- Coefficient table of GL0::PRNG::long_jump. -/
def ljtab : List Nat := [0xb523952e, 0x0b6f099f, 0xccf5a0ef, 0x1c580662]

/-- GL0::PRNG::jump. -/
def jump (s : RState) : RState := jumpEngine step 32 jtab s

/-- GL0::PRNG::long_jump. -/
def long_jump (s : RState) : RState := jumpEngine step 32 ljtab s

/-- GL0::PRNG::init(std::random_device &), branch for a source narrower
    than 32 bits: consecutive draws are taken in pairs (lo first), and each
    lane is clamp((hi << 16) | (lo & 0xffff)). -/
def initNarrow (f : Nat → Nat) : RState :=
  (clamp ((f 1 <<< 16) ||| (f 0 &&& 0xffff)),
   clamp ((f 3 <<< 16) ||| (f 2 &&& 0xffff)),
   clamp ((f 5 <<< 16) ||| (f 4 &&& 0xffff)),
   clamp ((f 7 <<< 16) ||| (f 6 &&& 0xffff)))

/-- GL0::PRNG::init(std::random_device &), branch for a source of at least
    32 bits: each lane is clamp(draw). -/
def initWide (f : Nat → Nat) : RState :=
  (clamp (f 0), clamp (f 1), clamp (f 2), clamp (f 3))

end GL0

/-! Lane-wise xor and bound lemmas. -/

theorem xorL_zero_left (a : RState) : xorL zeroS a = a := by
  obtain ⟨a0, a1, a2, a3⟩ := a
  simp [xorL, zeroS]

theorem xorL_zero_right (a : RState) : xorL a zeroS = a := by
  obtain ⟨a0, a1, a2, a3⟩ := a
  simp [xorL, zeroS]

theorem xorL_assoc (a b c : RState) : xorL (xorL a b) c = xorL a (xorL b c) := by
  obtain ⟨a0, a1, a2, a3⟩ := a
  obtain ⟨b0, b1, b2, b3⟩ := b
  obtain ⟨c0, c1, c2, c3⟩ := c
  simp [xorL, Nat.xor_assoc]

theorem zeroS_inB (W : Nat) : inBW W zeroS := by
  refine ⟨?_, ?_, ?_, ?_⟩ <;> exact Nat.two_pow_pos W

theorem xorL_inB {W : Nat} {a b : RState} (ha : inBW W a) (hb : inBW W b) :
    inBW W (xorL a b) := by
  obtain ⟨a0, a1, a2, a3⟩ := a
  obtain ⟨b0, b1, b2, b3⟩ := b
  obtain ⟨ha0, ha1, ha2, ha3⟩ := ha
  obtain ⟨hb0, hb1, hb2, hb3⟩ := hb
  exact ⟨Nat.xor_lt_two_pow ha0 hb0, Nat.xor_lt_two_pow ha1 hb1,
    Nat.xor_lt_two_pow ha2 hb2, Nat.xor_lt_two_pow ha3 hb3⟩

/-! Properties of the canonical rotate. -/

theorem mod_two_pow_or (a b W : Nat) :
    (a ||| b) % 2 ^ W = (a % 2 ^ W) ||| (b % 2 ^ W) := by
  rw [← Nat.and_pow_two_sub_one_eq_mod, ← Nat.and_pow_two_sub_one_eq_mod,
    ← Nat.and_pow_two_sub_one_eq_mod, Nat.and_distrib_right]

theorem rotW_lt (W u k : Nat) : rotW W u k < 2 ^ W :=
  Nat.mod_lt _ (Nat.two_pow_pos W)

theorem shiftRight_lt_of_lt {u W k : Nat} (hu : u < 2 ^ W) (hk : k ≤ W) :
    u >>> (W - k) < 2 ^ k := by
  rw [Nat.shiftRight_eq_div_pow]
  apply Nat.div_lt_of_lt_mul
  calc u < 2 ^ W := hu
    _ = 2 ^ (W - k) * 2 ^ k := by rw [← Nat.pow_add, Nat.sub_add_cancel hk]

theorem rotW_eq_xor (W u k : Nat) (hk : k ≤ W) :
    rotW W u k = (((u % 2 ^ W) <<< k) % 2 ^ W) ^^^ ((u % 2 ^ W) >>> (W - k)) := by
  have hvlt : u % 2 ^ W < 2 ^ W := Nat.mod_lt _ (Nat.two_pow_pos W)
  have hBlt : (u % 2 ^ W) >>> (W - k) < 2 ^ k := shiftRight_lt_of_lt hvlt hk
  have hdvd : 2 ^ k ∣ (((u % 2 ^ W) <<< k) % 2 ^ W) := by
    have h2 : (2 : Nat) ^ W = 2 ^ (W - k) * 2 ^ k := by
      rw [← Nat.pow_add, Nat.sub_add_cancel hk]
    generalize u % 2 ^ W = v
    rw [Nat.shiftLeft_eq, h2, Nat.mul_mod_mul_right]
    exact ⟨v % 2 ^ (W - k), Nat.mul_comm _ _⟩
  have hBW : (u % 2 ^ W) >>> (W - k) < 2 ^ W :=
    Nat.lt_of_lt_of_le hBlt (Nat.pow_le_pow_right (by omega) hk)
  rw [rotW, mod_two_pow_or, Nat.mod_eq_of_lt hBW,
    or_eq_xor_of_and_eq_zero (and_eq_zero_of_dvd_of_lt hdvd hBlt)]

theorem rotW_xor_distrib (W u v k : Nat) (hk : k ≤ W) (hu : u < 2 ^ W)
    (hv : v < 2 ^ W) : rotW W (u ^^^ v) k = rotW W u k ^^^ rotW W v k := by
  have hxor : u ^^^ v < 2 ^ W := Nat.xor_lt_two_pow hu hv
  rw [rotW_eq_xor W _ k hk, rotW_eq_xor W u k hk, rotW_eq_xor W v k hk,
    Nat.mod_eq_of_lt hxor, Nat.mod_eq_of_lt hu, Nat.mod_eq_of_lt hv,
    shiftLeft_xor_distrib, mod_two_pow_xor, shiftRight_xor_distrib]
  simp [Nat.xor_assoc, Nat.xor_comm, nat_xor_left_comm]

/-! Properties of the canonical step. -/

theorem stepW_zero (W S R2 : Nat) : stepW W S R2 zeroS = zeroS := by
  simp [stepW, zeroS, rotW]

theorem stepW_inB (W S R2 : Nat) {s : RState} (hs : inBW W s) :
    inBW W (stepW W S R2 s) := by
  obtain ⟨s0, s1, s2, s3⟩ := s
  obtain ⟨h0, h1, h2, h3⟩ := hs
  have ht : (s1 <<< S) % 2 ^ W < 2 ^ W := Nat.mod_lt _ (Nat.two_pow_pos W)
  exact ⟨Nat.xor_lt_two_pow h0 (Nat.xor_lt_two_pow h3 h1),
    Nat.xor_lt_two_pow h1 (Nat.xor_lt_two_pow h2 h0),
    Nat.xor_lt_two_pow (Nat.xor_lt_two_pow h2 h0) ht,
    rotW_lt W _ R2⟩

theorem outW_lt (W R1 : Nat) (s : RState) : outW W R1 s < 2 ^ W := by
  obtain ⟨s0, s1, s2, s3⟩ := s
  exact Nat.mod_lt _ (Nat.two_pow_pos W)

theorem stepW_linear (W S R2 : Nat) (hk : R2 ≤ W) {x y : RState}
    (hx : inBW W x) (hy : inBW W y) :
    stepW W S R2 (xorL x y) = xorL (stepW W S R2 x) (stepW W S R2 y) := by
  obtain ⟨x0, x1, x2, x3⟩ := x
  obtain ⟨y0, y1, y2, y3⟩ := y
  obtain ⟨hx0, hx1, hx2, hx3⟩ := hx
  obtain ⟨hy0, hy1, hy2, hy3⟩ := hy
  simp only [stepW, xorL, Prod.mk.injEq]
  refine ⟨?_, ?_, ?_, ?_⟩
  · simp [Nat.xor_assoc, Nat.xor_comm, nat_xor_left_comm]
  · simp [Nat.xor_assoc, Nat.xor_comm, nat_xor_left_comm]
  · rw [shiftLeft_xor_distrib, mod_two_pow_xor]
    simp [Nat.xor_assoc, Nat.xor_comm, nat_xor_left_comm]
  · have harg : (x3 ^^^ y3) ^^^ (x1 ^^^ y1) = (x3 ^^^ x1) ^^^ (y3 ^^^ y1) := by
      simp [Nat.xor_assoc, Nat.xor_comm, nat_xor_left_comm]
    rw [harg, rotW_xor_distrib W _ _ R2 hk
      (Nat.xor_lt_two_pow hx3 hx1) (Nat.xor_lt_two_pow hy3 hy1)]

/-! Bridges from the class embeddings to the canonical spec-side forms. -/

theorem x256_clamp_eq (u : Nat) : X256PP.clamp u = u % 2 ^ 64 := by
  have h : X256PP.result_max = 2 ^ 64 - 1 := by norm_num [X256PP.result_max]
  rw [X256PP.clamp, h, Nat.and_pow_two_sub_one_eq_mod]

theorem x128_clamp_eq (u : Nat) : X128PP.clamp u = u % 2 ^ 32 := by
  have h : X128PP.result_max = 2 ^ 32 - 1 := by norm_num [X128PP.result_max]
  rw [X128PP.clamp, h, Nat.and_pow_two_sub_one_eq_mod]

theorem gl0_clamp_eq (u : Nat) : GL0.clamp u = u % 2 ^ 32 := by
  have h : GL0.result_max = 2 ^ 32 - 1 := by norm_num [GL0.result_max]
  rw [GL0.clamp, h, Nat.and_pow_two_sub_one_eq_mod]

theorem x256_rol_eq (u k : Nat) (hk : k < 64) (hk0 : k ≠ 0) :
    X256PP.rol u k = rotW 64 u k := by
  rw [X256PP.rol, rotW]
  simp only [Nat.mod_eq_of_lt hk, x256_clamp_eq]
  rw [if_neg hk0]

theorem x128_rotl_eq (u k : Nat) (hk : k < 32) (hk0 : 0 < k) :
    X128PP.rotl u k = rotW 32 u k := by
  have hm : (32 - k) % 32 = 32 - k := Nat.mod_eq_of_lt (by omega)
  have hsh : ((u % 2 ^ 32) <<< k) % 2 ^ 32 = (u <<< k) % 2 ^ 32 := by
    rw [Nat.shiftLeft_eq, Nat.shiftLeft_eq, Nat.mod_mul_mod]
  have hB : (u % 2 ^ 32) >>> (32 - k) < 2 ^ 32 := by
    rw [Nat.shiftRight_eq_div_pow]
    exact Nat.lt_of_le_of_lt (Nat.div_le_self _ _) (Nat.mod_lt _ (by norm_num))
  rw [X128PP.rotl, rotW, hm, mod_two_pow_or, Nat.mod_eq_of_lt hB, hsh,
    x128_clamp_eq, x128_clamp_eq]

theorem gl0_rol_eq (u k : Nat) (hk : k < 32) (hk0 : 0 < k) :
    GL0.rol u k = rotW 32 u k := by
  have hand : k &&& 31 = k := by
    have h31 : (31 : Nat) = 2 ^ 5 - 1 := by norm_num
    rw [h31, Nat.and_pow_two_sub_one_eq_mod]
    exact Nat.mod_eq_of_lt (by omega)
  have hm : (32 - k % 32) % 32 = 32 - k := by
    rw [Nat.mod_eq_of_lt hk]
    exact Nat.mod_eq_of_lt (by omega)
  rw [GL0.rol, rotW, hand, hm, gl0_clamp_eq, gl0_clamp_eq]

theorem x256_next_eq (s : RState) :
    X256PP.next s = (outW 64 23 s, stepW 64 17 45 s) := by
  obtain ⟨s0, s1, s2, s3⟩ := s
  simp only [X256PP.next, outW, stepW,
    x256_rol_eq _ 23 (by omega) (by omega), x256_rol_eq _ 45 (by omega) (by omega),
    x256_clamp_eq]

theorem x128_next_eq (s : RState) :
    X128PP.next s = (outW 32 7 s, stepW 32 9 11 s) := by
  obtain ⟨s0, s1, s2, s3⟩ := s
  simp only [X128PP.next, outW, stepW,
    x128_rotl_eq _ 7 (by omega) (by omega), x128_rotl_eq _ 11 (by omega) (by omega),
    x128_clamp_eq]

theorem gl0_next_eq (s : RState) :
    GL0.next s = (outW 32 7 s, stepW 32 9 11 s) := by
  obtain ⟨s0, s1, s2, s3⟩ := s
  simp only [GL0.next, outW, stepW,
    gl0_rol_eq _ 7 (by omega) (by omega), gl0_rol_eq _ 11 (by omega) (by omega),
    gl0_clamp_eq]

theorem x256_step_eq (s : RState) : X256PP.step s = stepW 64 17 45 s := by
  rw [X256PP.step, x256_next_eq]

theorem x128_step_eq (s : RState) : X128PP.step s = stepW 32 9 11 s := by
  rw [X128PP.step, x128_next_eq]

theorem gl0_step_eq (s : RState) : GL0.step s = stepW 32 9 11 s := by
  rw [GL0.step, gl0_next_eq]

theorem x256_out_eq (s : RState) : X256PP.out s = outW 64 23 s := by
  rw [X256PP.out, x256_next_eq]

theorem x128_out_eq (s : RState) : X128PP.out s = outW 32 7 s := by
  rw [X128PP.out, x128_next_eq]

theorem gl0_out_eq (s : RState) : GL0.out s = outW 32 7 s := by
  rw [GL0.out, gl0_next_eq]

/-! Characterization of the jump engine.  The accumulator produced by the
interleaved loop is the lane-wise xor, over the set coefficient bits, of
the iterated states step^[k] s. -/

/-- The gate condition used in the source (`j & (1 << b)`) tests bit b. -/
theorem gate_iff (j b : Nat) : (j &&& (1 <<< b) ≠ 0) ↔ j.testBit b = true := by
  rw [Nat.shiftLeft_eq, Nat.one_mul, Nat.and_two_pow]
  cases h : j.testBit b <;> simp [h, (Nat.two_pow_pos b).ne']

/-- Accumulated xor of the evolving states whose gate bit is set, over n
    iterations starting at bit index b from state t. -/
def accBits (T : RState → RState) (j : Nat) : RState → Nat → Nat → RState
  | _, _, 0 => zeroS
  | t, b, n + 1 =>
    let rest := accBits T j (T t) (b + 1) n
    if j &&& (1 <<< b) ≠ 0 then xorL t rest else rest

/-- The inner jump loop in closed form: the buffer collects the gated xor of
    the evolving states, and the state advances n times. -/
theorem bitLoop_eq (T : RState → RState) (j : Nat) :
    ∀ (n b : Nat) (jbuf s : RState),
    bitLoop T j b n (jbuf, s) = (xorL jbuf (accBits T j s b n), T^[n] s) := by
  intro n
  induction n with
  | zero =>
    intro b jbuf s
    simp [bitLoop, accBits, xorL_zero_right]
  | succ n ih =>
    intro b jbuf s
    rw [bitLoop, ih, accBits]
    by_cases hbit : j &&& (1 <<< b) ≠ 0
    · rw [if_pos hbit, if_pos hbit, xorL_assoc, ← Function.iterate_succ_apply,
        Nat.succ_eq_add_one]
    · rw [if_neg hbit, if_neg hbit, ← Function.iterate_succ_apply,
        Nat.succ_eq_add_one]

/-- The jump engine on a four-word table, in closed form. -/
theorem jumpEngine_eq (T : RState → RState) (W j0 j1 j2 j3 : Nat) (s : RState) :
    jumpEngine T W [j0, j1, j2, j3] s =
      xorL (accBits T j0 s 0 W)
        (xorL (accBits T j1 (T^[W] s) 0 W)
          (xorL (accBits T j2 (T^[W] (T^[W] s)) 0 W)
            (accBits T j3 (T^[W] (T^[W] (T^[W] s))) 0 W))) := by
  unfold jumpEngine
  simp only [List.foldl_cons, List.foldl_nil]
  rw [bitLoop_eq, bitLoop_eq, bitLoop_eq, bitLoop_eq]
  simp [xorL_zero_left, xorL_assoc]

/-! Spec-side jump algorithm: the accumulator described in the specification
is an explicit gated xor of iterated states (the evolving state after k
generator calls is step^[k] of the original state). -/

/-- Accumulator contribution of one coefficient word j (specification,
    section 4.2): xor of step^[base+b] s over the bit positions b
    (0..W-1, least significant first) that are set in j. -/
def specWordAcc (T : RState → RState) (j : Nat) (s : RState) (base W : Nat) : RState :=
  (List.range W).foldr
    (fun b acc => if j.testBit b then xorL (T^[base + b] s) acc else acc) zeroS

/-- The jump algorithm as described in the specification: process the table
    words in order, scanning each word's W bits least-significant first;
    the final state is the accumulated xor over all 4*W iterations. -/
def specJump (T : RState → RState) (W : Nat) (tab : List Nat) (s : RState) : RState :=
  (List.range tab.length).foldr
    (fun w acc => xorL (specWordAcc T (tab.getD w 0) s (w * W) W) acc) zeroS

/-- Congruence for gated xor folds. -/
theorem foldr_gate_congr {P Q : Nat → Bool} {f g : Nat → RState} (L : List Nat)
    (hPQ : ∀ i, P i = Q i) (hfg : ∀ i, f i = g i) (z : RState) :
    L.foldr (fun i acc => if P i then xorL (f i) acc else acc) z
      = L.foldr (fun i acc => if Q i then xorL (g i) acc else acc) z := by
  induction L with
  | nil => rfl
  | cons a l ih => simp only [List.foldr_cons, ih, hPQ a, hfg a]

/-- accBits in fold form over the iterated states. -/
theorem accBits_eq_fold (T : RState → RState) (j : Nat) :
    ∀ (n b : Nat) (t : RState),
    accBits T j t b n =
      (List.range n).foldr
        (fun i acc => if j.testBit (b + i) then xorL (T^[i] t) acc else acc) zeroS := by
  intro n
  induction n with
  | zero =>
    intro b t
    simp [accBits]
  | succ n ih =>
    intro b t
    simp only [accBits]
    rw [ih, List.range_succ_eq_map, List.foldr_cons, List.foldr_map]
    have hrest :
        (List.range n).foldr
          (fun i acc => if j.testBit (b + 1 + i) then xorL (T^[i] (T t)) acc else acc)
          zeroS =
        (List.range n).foldr
          (fun i acc =>
            if j.testBit (b + Nat.succ i) then xorL (T^[Nat.succ i] t) acc else acc)
          zeroS :=
      foldr_gate_congr (List.range n)
        (fun i => by congr 1; omega)
        (fun i => (Function.iterate_succ_apply T i t).symm) zeroS
    rw [hrest, Nat.add_zero, Function.iterate_zero_apply]
    by_cases hbit : j.testBit b = true
    · rw [if_pos ((gate_iff j b).mpr hbit), if_pos hbit]
    · rw [if_neg (fun hc => hbit ((gate_iff j b).mp hc)), if_neg hbit]

/-- accBits starting from an iterated state is the spec word accumulator. -/
theorem accBits_specWordAcc (T : RState → RState) (j m W : Nat) (s : RState) :
    accBits T j (T^[m] s) 0 W = specWordAcc T j s m W := by
  rw [accBits_eq_fold, specWordAcc]
  exact foldr_gate_congr (List.range W)
    (fun i => by rw [Nat.zero_add])
    (fun i => by rw [← Function.iterate_add_apply]; congr 1; omega) zeroS

/-- specJump on a four-word table, unfolded. -/
theorem specJump_four (T : RState → RState) (W j0 j1 j2 j3 : Nat) (s : RState) :
    specJump T W [j0, j1, j2, j3] s =
      xorL (specWordAcc T j0 s 0 W)
        (xorL (specWordAcc T j1 s W W)
          (xorL (specWordAcc T j2 s (2 * W) W)
            (specWordAcc T j3 s (3 * W) W))) := by
  have hlen : ([j0, j1, j2, j3] : List Nat).length = 4 := rfl
  have hrange : List.range 4 = [0, 1, 2, 3] := rfl
  have hg0 : ([j0, j1, j2, j3] : List Nat).getD 0 0 = j0 := rfl
  have hg1 : ([j0, j1, j2, j3] : List Nat).getD 1 0 = j1 := rfl
  have hg2 : ([j0, j1, j2, j3] : List Nat).getD 2 0 = j2 := rfl
  have hg3 : ([j0, j1, j2, j3] : List Nat).getD 3 0 = j3 := rfl
  rw [specJump, hlen, hrange]
  simp only [List.foldr_cons, List.foldr_nil, hg0, hg1, hg2, hg3]
  rw [xorL_zero_right, Nat.zero_mul, Nat.one_mul]

/-- The source jump loop computes exactly the specification's accumulator. -/
theorem jumpEngine_spec (T : RState → RState) (W j0 j1 j2 j3 : Nat) (s : RState) :
    jumpEngine T W [j0, j1, j2, j3] s = specJump T W [j0, j1, j2, j3] s := by
  rw [jumpEngine_eq, specJump_four]
  have hW2 : T^[W] (T^[W] s) = T^[2 * W] s := by
    rw [← Function.iterate_add_apply]; congr 1; omega
  have h0 : accBits T j0 s 0 W = specWordAcc T j0 s 0 W := by
    have h := accBits_specWordAcc T j0 0 W s
    rwa [Function.iterate_zero_apply] at h
  rw [hW2]
  have hW3 : T^[W] (T^[2 * W] s) = T^[3 * W] s := by
    rw [← Function.iterate_add_apply]; congr 1; omega
  rw [hW3, h0, accBits_specWordAcc T j1 W W s, accBits_specWordAcc T j2 (2 * W) W s,
    accBits_specWordAcc T j3 (3 * W) W s]

/-! Linearity transport: a step map that is xor-linear on bounded states and
fixes the zero state commutes with the spec accumulator, hence with the
source jump loop. -/

theorem iterate_inB (T : RState → RState) (W : Nat)
    (hB : ∀ x, inBW W x → inBW W (T x)) {s : RState} (hs : inBW W s) :
    ∀ n, inBW W (T^[n] s) := by
  intro n
  induction n with
  | zero => simpa using hs
  | succ n ih =>
    rw [Function.iterate_succ_apply']
    exact hB _ ih

theorem fold_gate_inB (T : RState → RState) (W : Nat)
    (hB : ∀ x, inBW W x → inBW W (T x)) {s : RState} (hs : inBW W s)
    (P : Nat → Bool) (f : Nat → Nat) (L : List Nat) :
    inBW W (L.foldr (fun k acc => if P k then xorL (T^[f k] s) acc else acc) zeroS) := by
  induction L with
  | nil => exact zeroS_inB W
  | cons a l ih =>
    rw [List.foldr_cons]
    by_cases h : P a = true
    · rw [if_pos h]
      exact xorL_inB (iterate_inB T W hB hs (f a)) ih
    · rw [if_neg h]
      exact ih

theorem T_push_fold (T : RState → RState) (W : Nat)
    (hB : ∀ x, inBW W x → inBW W (T x))
    (hlin : ∀ x y, inBW W x → inBW W y → T (xorL x y) = xorL (T x) (T y))
    (hz : T zeroS = zeroS) {s : RState} (hs : inBW W s)
    (P : Nat → Bool) (f : Nat → Nat) (L : List Nat) :
    T (L.foldr (fun k acc => if P k then xorL (T^[f k] s) acc else acc) zeroS)
      = L.foldr (fun k acc => if P k then xorL (T^[f k] (T s)) acc else acc) zeroS := by
  induction L with
  | nil => simpa using hz
  | cons a l ih =>
    rw [List.foldr_cons, List.foldr_cons]
    by_cases h : P a = true
    · rw [if_pos h, if_pos h,
        hlin _ _ (iterate_inB T W hB hs (f a)) (fold_gate_inB T W hB hs P f l), ih]
      congr 1
      exact (Function.iterate_succ_apply' T (f a) s).symm.trans
        (Function.iterate_succ_apply T (f a) s)
    · rw [if_neg h, if_neg h, ih]

theorem specWordAcc_inB (T : RState → RState) (W : Nat)
    (hB : ∀ x, inBW W x → inBW W (T x)) {s : RState} (hs : inBW W s)
    (j base : Nat) : inBW W (specWordAcc T j s base W) :=
  fold_gate_inB T W hB hs (fun b => j.testBit b) (fun b => base + b) (List.range W)

theorem specJump_fold_inB (T : RState → RState) (W : Nat)
    (hB : ∀ x, inBW W x → inBW W (T x)) {s : RState} (hs : inBW W s)
    (tab : List Nat) (L : List Nat) :
    inBW W (L.foldr
      (fun w acc => xorL (specWordAcc T (tab.getD w 0) s (w * W) W) acc) zeroS) := by
  induction L with
  | nil => exact zeroS_inB W
  | cons a l ih =>
    rw [List.foldr_cons]
    exact xorL_inB (specWordAcc_inB T W hB hs _ _) ih

theorem specJump_push (T : RState → RState) (W : Nat) (tab : List Nat)
    (hB : ∀ x, inBW W x → inBW W (T x))
    (hlin : ∀ x y, inBW W x → inBW W y → T (xorL x y) = xorL (T x) (T y))
    (hz : T zeroS = zeroS) {s : RState} (hs : inBW W s) :
    T (specJump T W tab s) = specJump T W tab (T s) := by
  unfold specJump
  generalize List.range tab.length = L
  induction L with
  | nil => simpa using hz
  | cons w l ih =>
    rw [List.foldr_cons, List.foldr_cons,
      hlin _ _ (specWordAcc_inB T W hB hs _ _) (specJump_fold_inB T W hB hs tab l), ih]
    congr 1
    exact T_push_fold T W hB hlin hz hs
      (fun b => (tab.getD w 0).testBit b) (fun b => w * W + b) (List.range W)

theorem jumpEngine_inB (T : RState → RState) (W j0 j1 j2 j3 : Nat)
    (hB : ∀ x, inBW W x → inBW W (T x)) {s : RState} (hs : inBW W s) :
    inBW W (jumpEngine T W [j0, j1, j2, j3] s) := by
  rw [jumpEngine_spec]
  exact specJump_fold_inB T W hB hs [j0, j1, j2, j3] (List.range 4)

theorem jumpEngine_comm (T : RState → RState) (W j0 j1 j2 j3 : Nat)
    (hB : ∀ x, inBW W x → inBW W (T x))
    (hlin : ∀ x y, inBW W x → inBW W y → T (xorL x y) = xorL (T x) (T y))
    (hz : T zeroS = zeroS) {s : RState} (hs : inBW W s) :
    jumpEngine T W [j0, j1, j2, j3] (T s) = T (jumpEngine T W [j0, j1, j2, j3] s) := by
  rw [jumpEngine_spec, jumpEngine_spec, specJump_push T W _ hB hlin hz hs]

theorem jumpEngine_comm_iterate (T : RState → RState) (W j0 j1 j2 j3 : Nat)
    (hB : ∀ x, inBW W x → inBW W (T x))
    (hlin : ∀ x y, inBW W x → inBW W y → T (xorL x y) = xorL (T x) (T y))
    (hz : T zeroS = zeroS) {s : RState} (hs : inBW W s) (N : Nat) :
    jumpEngine T W [j0, j1, j2, j3] (T^[N] s)
      = T^[N] (jumpEngine T W [j0, j1, j2, j3] s) := by
  induction N with
  | zero => simp
  | succ N ih =>
    rw [Function.iterate_succ_apply', Function.iterate_succ_apply',
      jumpEngine_comm T W j0 j1 j2 j3 hB hlin hz (iterate_inB T W hB hs N), ih]

/-! Per-class facts feeding the generic jump machinery. -/

theorem x256_step_inB : ∀ x, inBW 64 x → inBW 64 (X256PP.step x) := by
  intro x hx
  rw [x256_step_eq]
  exact stepW_inB 64 17 45 hx

theorem x256_step_linear : ∀ x y, inBW 64 x → inBW 64 y →
    X256PP.step (xorL x y) = xorL (X256PP.step x) (X256PP.step y) := by
  intro x y hx hy
  rw [x256_step_eq, x256_step_eq, x256_step_eq]
  exact stepW_linear 64 17 45 (by omega) hx hy

theorem x256_step_zero : X256PP.step zeroS = zeroS := by
  rw [x256_step_eq]
  exact stepW_zero 64 17 45

theorem x128_step_inB : ∀ x, inBW 32 x → inBW 32 (X128PP.step x) := by
  intro x hx
  rw [x128_step_eq]
  exact stepW_inB 32 9 11 hx

theorem x128_step_linear : ∀ x y, inBW 32 x → inBW 32 y →
    X128PP.step (xorL x y) = xorL (X128PP.step x) (X128PP.step y) := by
  intro x y hx hy
  rw [x128_step_eq, x128_step_eq, x128_step_eq]
  exact stepW_linear 32 9 11 (by omega) hx hy

theorem x128_step_zero : X128PP.step zeroS = zeroS := by
  rw [x128_step_eq]
  exact stepW_zero 32 9 11

theorem gl0_step_inB : ∀ x, inBW 32 x → inBW 32 (GL0.step x) := by
  intro x hx
  rw [gl0_step_eq]
  exact stepW_inB 32 9 11 hx

theorem gl0_step_linear : ∀ x y, inBW 32 x → inBW 32 y →
    GL0.step (xorL x y) = xorL (GL0.step x) (GL0.step y) := by
  intro x y hx hy
  rw [gl0_step_eq, gl0_step_eq, gl0_step_eq]
  exact stepW_linear 32 9 11 (by omega) hx hy

theorem gl0_step_zero : GL0.step zeroS = zeroS := by
  rw [gl0_step_eq]
  exact stepW_zero 32 9 11

/-! Injectivity building blocks for the avalanche mix functions. -/

theorem shiftRight_self_le (x k : Nat) : x >>> k ≤ x := by
  rw [Nat.shiftRight_eq_div_pow]
  exact Nat.div_le_self _ _

theorem xorshift_lt {W k x : Nat} (hx : x < 2 ^ W) : x ^^^ (x >>> k) < 2 ^ W :=
  Nat.xor_lt_two_pow hx (Nat.lt_of_le_of_lt (shiftRight_self_le x k) hx)

/-- A xorshift round x ^ (x >> k), k > 0, is injective on W-bit values. -/
theorem xorshift_inj (W k : Nat) (hk : 0 < k) :
    ∀ x, x < 2 ^ W → ∀ y, y < 2 ^ W →
    x ^^^ (x >>> k) = y ^^^ (y >>> k) → x = y := by
  intro x hx y hy h
  apply Nat.eq_of_testBit_eq
  have main : ∀ d i, W ≤ i + d * k → x.testBit i = y.testBit i := by
    intro d
    induction d with
    | zero =>
      intro i hi
      have hWi : W ≤ i := by omega
      have h2 : (2 : Nat) ^ W ≤ 2 ^ i := Nat.pow_le_pow_right (by omega) hWi
      rw [Nat.testBit_lt_two_pow (Nat.lt_of_lt_of_le hx h2),
        Nat.testBit_lt_two_pow (Nat.lt_of_lt_of_le hy h2)]
    | succ d ih =>
      intro i hi
      rw [Nat.succ_mul] at hi
      have hki : x.testBit (k + i) = y.testBit (k + i) := ih (k + i) (by omega)
      have hbit := congrArg (fun n => Nat.testBit n i) h
      simp only [Nat.testBit_xor, Nat.testBit_shiftRight] at hbit
      rw [hki] at hbit
      cases hxi : x.testBit i <;> cases hyi : y.testBit i <;>
        cases hc : y.testBit (k + i) <;> simp_all
  intro i
  have hWk : W ≤ W * k := Nat.le_mul_of_pos_right W hk
  exact main W i (by omega)

/-- Multiplication by an odd constant is injective modulo 2^W. -/
theorem mulmod_inj (W c : Nat) (hc : c % 2 = 1) :
    ∀ x, x < 2 ^ W → ∀ y, y < 2 ^ W →
    (x * c) % 2 ^ W = (y * c) % 2 ^ W → x = y := by
  intro x hx y hy h
  have hco : Nat.gcd (2 ^ W) c = 1 :=
    Nat.Coprime.pow_left W (Nat.coprime_two_left.mpr (Nat.odd_iff.mpr hc))
  have hmod : x % 2 ^ W = y % 2 ^ W := Nat.ModEq.cancel_right_of_coprime hco h
  rwa [Nat.mod_eq_of_lt hx, Nat.mod_eq_of_lt hy] at hmod

/-- Adding a constant is injective modulo 2^W. -/
theorem addmod_inj (W a : Nat) :
    ∀ x, x < 2 ^ W → ∀ y, y < 2 ^ W →
    (x + a) % 2 ^ W = (y + a) % 2 ^ W → x = y := by
  intro x hx y hy h
  have hmod : x % 2 ^ W = y % 2 ^ W := Nat.ModEq.add_right_cancel' a h
  rwa [Nat.mod_eq_of_lt hx, Nat.mod_eq_of_lt hy] at hmod

/-- Two consecutive splitmix accumulator values differ (the increment is a
    nonzero W-bit constant). -/
theorem splitmix_consec_ne {W c : Nat} (hc0 : 0 < c) (hcW : c < 2 ^ W) (a : Nat)
    (ha : a < 2 ^ W) : (a + c) % 2 ^ W ≠ a := by
  intro h
  have h2 : (a + c) % 2 ^ W = (a + 0) % 2 ^ W := by
    rw [h, Nat.add_zero, Nat.mod_eq_of_lt ha]
  have h3 : c ≡ 0 [MOD 2 ^ W] := Nat.ModEq.add_left_cancel' a h2
  have h4 : c % 2 ^ W = 0 := by simpa [Nat.ModEq] using h3
  rw [Nat.mod_eq_of_lt hcW] at h4
  omega

/-! Injectivity and range of the three mix functions. -/

theorem x256_mix_lt (u : Nat) : X256PP.mix u < 2 ^ 64 := by
  simp only [X256PP.mix, x256_clamp_eq]
  exact xorshift_lt (Nat.mod_lt _ (Nat.two_pow_pos 64))

theorem x128_mix_lt (u : Nat) : X128PP.mix u < 2 ^ 32 := by
  simp only [X128PP.mix, x128_clamp_eq]
  exact xorshift_lt (Nat.mod_lt _ (Nat.two_pow_pos 32))

theorem gl0_mix_lt (u : Nat) : GL0.mix u < 2 ^ 32 := by
  simp only [GL0.mix, gl0_clamp_eq]
  exact xorshift_lt (Nat.mod_lt _ (Nat.two_pow_pos 32))

/-- Stafford Mix13 (X256PP::mix) is injective on 64-bit inputs. -/
theorem x256_mix_inj :
    ∀ x, x < 2 ^ 64 → ∀ y, y < 2 ^ 64 → X256PP.mix x = X256PP.mix y → x = y := by
  intro x hx y hy h
  simp only [X256PP.mix, x256_clamp_eq, Nat.mod_eq_of_lt hx, Nat.mod_eq_of_lt hy] at h
  set a1 := x ^^^ x >>> 30 with ha1
  set a2 := y ^^^ y >>> 30 with ha2
  set b1 := a1 * 0xbf58476d1ce4e5b9 % 2 ^ 64 with hb1
  set b2 := a2 * 0xbf58476d1ce4e5b9 % 2 ^ 64 with hb2
  set c1 := b1 ^^^ b1 >>> 27 with hc1
  set c2 := b2 ^^^ b2 >>> 27 with hc2
  set d1 := c1 * 0x94d049bb133111eb % 2 ^ 64 with hd1
  set d2 := c2 * 0x94d049bb133111eb % 2 ^ 64 with hd2
  have hb1lt : b1 < 2 ^ 64 := by rw [hb1]; exact Nat.mod_lt _ (Nat.two_pow_pos 64)
  have hb2lt : b2 < 2 ^ 64 := by rw [hb2]; exact Nat.mod_lt _ (Nat.two_pow_pos 64)
  have hc1lt : c1 < 2 ^ 64 := by rw [hc1]; exact xorshift_lt hb1lt
  have hc2lt : c2 < 2 ^ 64 := by rw [hc2]; exact xorshift_lt hb2lt
  have hd1lt : d1 < 2 ^ 64 := by rw [hd1]; exact Nat.mod_lt _ (Nat.two_pow_pos 64)
  have hd2lt : d2 < 2 ^ 64 := by rw [hd2]; exact Nat.mod_lt _ (Nat.two_pow_pos 64)
  have h5 : d1 = d2 := xorshift_inj 64 31 (by norm_num) d1 hd1lt d2 hd2lt h
  have h4 : c1 = c2 := by
    apply mulmod_inj 64 0x94d049bb133111eb (by norm_num) c1 hc1lt c2 hc2lt
    rw [← hd1, ← hd2]
    exact h5
  have h3 : b1 = b2 := by
    apply xorshift_inj 64 27 (by norm_num) b1 hb1lt b2 hb2lt
    rw [← hc1, ← hc2]
    exact h4
  have h2 : a1 = a2 := by
    apply mulmod_inj 64 0xbf58476d1ce4e5b9 (by norm_num) a1 (by rw [ha1]; exact xorshift_lt hx)
      a2 (by rw [ha2]; exact xorshift_lt hy)
    rw [← hb1, ← hb2]
    exact h3
  apply xorshift_inj 64 30 (by norm_num) x hx y hy
  rw [← ha1, ← ha2]
  exact h2

/-- triple32inc (X128PP::mix) is injective on 32-bit inputs. -/
theorem x128_mix_inj :
    ∀ x, x < 2 ^ 32 → ∀ y, y < 2 ^ 32 → X128PP.mix x = X128PP.mix y → x = y := by
  intro x hx y hy h
  simp only [X128PP.mix, x128_clamp_eq] at h
  set e1 := (x + 1) % 2 ^ 32 with he1
  set e2 := (y + 1) % 2 ^ 32 with he2
  set g1 := (e1 ^^^ e1 >>> 17) * 0xed5ad4bb % 2 ^ 32 with hg1
  set g2 := (e2 ^^^ e2 >>> 17) * 0xed5ad4bb % 2 ^ 32 with hg2
  set k1 := (g1 ^^^ g1 >>> 11) * 0xac4c1b51 % 2 ^ 32 with hk1
  set k2 := (g2 ^^^ g2 >>> 11) * 0xac4c1b51 % 2 ^ 32 with hk2
  set m1 := (k1 ^^^ k1 >>> 15) * 0x31848bab % 2 ^ 32 with hm1
  set m2 := (k2 ^^^ k2 >>> 15) * 0x31848bab % 2 ^ 32 with hm2
  have he1lt : e1 < 2 ^ 32 := by rw [he1]; exact Nat.mod_lt _ (Nat.two_pow_pos 32)
  have he2lt : e2 < 2 ^ 32 := by rw [he2]; exact Nat.mod_lt _ (Nat.two_pow_pos 32)
  have hg1lt : g1 < 2 ^ 32 := by rw [hg1]; exact Nat.mod_lt _ (Nat.two_pow_pos 32)
  have hg2lt : g2 < 2 ^ 32 := by rw [hg2]; exact Nat.mod_lt _ (Nat.two_pow_pos 32)
  have hk1lt : k1 < 2 ^ 32 := by rw [hk1]; exact Nat.mod_lt _ (Nat.two_pow_pos 32)
  have hk2lt : k2 < 2 ^ 32 := by rw [hk2]; exact Nat.mod_lt _ (Nat.two_pow_pos 32)
  have hm1lt : m1 < 2 ^ 32 := by rw [hm1]; exact Nat.mod_lt _ (Nat.two_pow_pos 32)
  have hm2lt : m2 < 2 ^ 32 := by rw [hm2]; exact Nat.mod_lt _ (Nat.two_pow_pos 32)
  have h6 : m1 = m2 := xorshift_inj 32 14 (by norm_num) m1 hm1lt m2 hm2lt h
  have h5 : k1 = k2 := by
    have hx1 : k1 ^^^ k1 >>> 15 = k2 ^^^ k2 >>> 15 := by
      apply mulmod_inj 32 0x31848bab (by norm_num) _ (xorshift_lt hk1lt) _ (xorshift_lt hk2lt)
      rw [← hm1, ← hm2]
      exact h6
    exact xorshift_inj 32 15 (by norm_num) k1 hk1lt k2 hk2lt hx1
  have h4 : g1 = g2 := by
    have hx1 : g1 ^^^ g1 >>> 11 = g2 ^^^ g2 >>> 11 := by
      apply mulmod_inj 32 0xac4c1b51 (by norm_num) _ (xorshift_lt hg1lt) _ (xorshift_lt hg2lt)
      rw [← hk1, ← hk2]
      exact h5
    exact xorshift_inj 32 11 (by norm_num) g1 hg1lt g2 hg2lt hx1
  have h3 : e1 = e2 := by
    have hx1 : e1 ^^^ e1 >>> 17 = e2 ^^^ e2 >>> 17 := by
      apply mulmod_inj 32 0xed5ad4bb (by norm_num) _ (xorshift_lt he1lt) _ (xorshift_lt he2lt)
      rw [← hg1, ← hg2]
      exact h4
    exact xorshift_inj 32 17 (by norm_num) e1 he1lt e2 he2lt hx1
  apply addmod_inj 32 1 x hx y hy
  rw [← he1, ← he2]
  exact h3

/-- triple32 (GL0::PRNG::mix) is injective on 32-bit inputs. -/
theorem gl0_mix_inj :
    ∀ x, x < 2 ^ 32 → ∀ y, y < 2 ^ 32 → GL0.mix x = GL0.mix y → x = y := by
  intro x hx y hy h
  simp only [GL0.mix, gl0_clamp_eq, Nat.mod_eq_of_lt hx, Nat.mod_eq_of_lt hy] at h
  set g1 := (x ^^^ x >>> 17) * 0xed5ad4bb % 2 ^ 32 with hg1
  set g2 := (y ^^^ y >>> 17) * 0xed5ad4bb % 2 ^ 32 with hg2
  set k1 := (g1 ^^^ g1 >>> 11) * 0xac4c1b51 % 2 ^ 32 with hk1
  set k2 := (g2 ^^^ g2 >>> 11) * 0xac4c1b51 % 2 ^ 32 with hk2
  set m1 := (k1 ^^^ k1 >>> 15) * 0x31848bab % 2 ^ 32 with hm1
  set m2 := (k2 ^^^ k2 >>> 15) * 0x31848bab % 2 ^ 32 with hm2
  have hg1lt : g1 < 2 ^ 32 := by rw [hg1]; exact Nat.mod_lt _ (Nat.two_pow_pos 32)
  have hg2lt : g2 < 2 ^ 32 := by rw [hg2]; exact Nat.mod_lt _ (Nat.two_pow_pos 32)
  have hk1lt : k1 < 2 ^ 32 := by rw [hk1]; exact Nat.mod_lt _ (Nat.two_pow_pos 32)
  have hk2lt : k2 < 2 ^ 32 := by rw [hk2]; exact Nat.mod_lt _ (Nat.two_pow_pos 32)
  have hm1lt : m1 < 2 ^ 32 := by rw [hm1]; exact Nat.mod_lt _ (Nat.two_pow_pos 32)
  have hm2lt : m2 < 2 ^ 32 := by rw [hm2]; exact Nat.mod_lt _ (Nat.two_pow_pos 32)
  have h6 : m1 = m2 := xorshift_inj 32 14 (by norm_num) m1 hm1lt m2 hm2lt h
  have h5 : k1 = k2 := by
    have hx1 : k1 ^^^ k1 >>> 15 = k2 ^^^ k2 >>> 15 := by
      apply mulmod_inj 32 0x31848bab (by norm_num) _ (xorshift_lt hk1lt) _ (xorshift_lt hk2lt)
      rw [← hm1, ← hm2]
      exact h6
    exact xorshift_inj 32 15 (by norm_num) k1 hk1lt k2 hk2lt hx1
  have h4 : g1 = g2 := by
    have hx1 : g1 ^^^ g1 >>> 11 = g2 ^^^ g2 >>> 11 := by
      apply mulmod_inj 32 0xac4c1b51 (by norm_num) _ (xorshift_lt hg1lt) _ (xorshift_lt hg2lt)
      rw [← hk1, ← hk2]
      exact h5
    exact xorshift_inj 32 11 (by norm_num) g1 hg1lt g2 hg2lt hx1
  apply xorshift_inj 32 17 (by norm_num) x hx y hy
  have hx1 : (x ^^^ x >>> 17) * 0xed5ad4bb % 2 ^ 32 = (y ^^^ y >>> 17) * 0xed5ad4bb % 2 ^ 32 := by
    rw [← hg1, ← hg2]
    exact h4
  exact mulmod_inj 32 0xed5ad4bb (by norm_num) _ (xorshift_lt hx) _ (xorshift_lt hy) hx1

/-! The splitmix seed expansion never produces the all-zero state: the mix
functions are injective, so two distinct consecutive accumulator values
cannot both map to zero. -/

theorem x256_init_ne_zero (seed : Nat) : X256PP.initState seed ≠ zeroS := by
  intro hzero
  simp only [X256PP.initState, zeroS, Prod.mk.injEq] at hzero
  obtain ⟨h1, h2, -, -⟩ := hzero
  have ha1lt : (seed + 0x9e3779b97f4a7c15) % 2 ^ 64 < 2 ^ 64 :=
    Nat.mod_lt _ (Nat.two_pow_pos 64)
  have ha2lt : ((seed + 0x9e3779b97f4a7c15) % 2 ^ 64 + 0x9e3779b97f4a7c15) % 2 ^ 64 < 2 ^ 64 :=
    Nat.mod_lt _ (Nat.two_pow_pos 64)
  have heq := x256_mix_inj _ ha1lt _ ha2lt (h1.trans h2.symm)
  exact splitmix_consec_ne (by norm_num) (by norm_num) _ ha1lt heq.symm

theorem x128_seed_ne_zero (s : Nat) : X128PP.seedState s ≠ zeroS := by
  intro hzero
  simp only [X128PP.seedState, x128_clamp_eq, zeroS, Prod.mk.injEq] at hzero
  obtain ⟨h1, h2, -, -⟩ := hzero
  have ha1lt : (s + 0x9e3779b9) % 2 ^ 32 < 2 ^ 32 := Nat.mod_lt _ (Nat.two_pow_pos 32)
  have ha2lt : ((s + 0x9e3779b9) % 2 ^ 32 + 0x9e3779b9) % 2 ^ 32 < 2 ^ 32 :=
    Nat.mod_lt _ (Nat.two_pow_pos 32)
  have heq := x128_mix_inj _ ha1lt _ ha2lt (h1.trans h2.symm)
  exact splitmix_consec_ne (by norm_num) (by norm_num) _ ha1lt heq.symm

theorem gl0_seed_ne_zero (s : Nat) : GL0.seedState s ≠ zeroS := by
  intro hzero
  simp only [GL0.seedState, gl0_clamp_eq, zeroS, Prod.mk.injEq] at hzero
  obtain ⟨h1, h2, -, -⟩ := hzero
  have ha1lt : (s + 0x9e3779b9) % 2 ^ 32 < 2 ^ 32 := Nat.mod_lt _ (Nat.two_pow_pos 32)
  have ha2lt : ((s + 0x9e3779b9) % 2 ^ 32 + 0x9e3779b9) % 2 ^ 32 < 2 ^ 32 :=
    Nat.mod_lt _ (Nat.two_pow_pos 32)
  have heq := gl0_mix_inj _ ha1lt _ ha2lt (h1.trans h2.symm)
  exact splitmix_consec_ne (by norm_num) (by norm_num) _ ha1lt heq.symm

/-! Embedding of minv4.c: efficient 4x4 matrix inverse.  The float
arithmetic of the source is modelled by exact rationals and FLT_EPSILON by
the parameter eps; the control flow of the function (in particular the
early return that performs no write to the matrix) does not depend on this
choice of number representation. -/

/-- A 4x4 matrix of rationals; field eIJ is the source entry m[I][J]. -/
structure Mat4 where
  e00 : ℚ
  e01 : ℚ
  e02 : ℚ
  e03 : ℚ
  e10 : ℚ
  e11 : ℚ
  e12 : ℚ
  e13 : ℚ
  e20 : ℚ
  e21 : ℚ
  e22 : ℚ
  e23 : ℚ
  e30 : ℚ
  e31 : ℚ
  e32 : ℚ
  e33 : ℚ

/-- invert_4x4 from minv4.c: returns (0, m) when the determinant magnitude
    is below eps (the matrix argument is returned unmodified), otherwise
    (1, the inverse).  All entries of the source matrix are cached in
    locals before any write, exactly as in the source. -/
def invert_4x4 (eps : ℚ) (m : Mat4) : Int × Mat4 :=
  let m30 := m.e30
  let m31 := m.e31
  let m32 := m.e32
  let m33 := m.e33
  let m20 := m.e20
  let m21 := m.e21
  let m22 := m.e22
  let m23 := m.e23
  let d01 := m20 * m31 - m30 * m21
  let d12 := m21 * m32 - m31 * m22
  let d23 := m22 * m33 - m32 * m23
  let d30 := m23 * m30 - m33 * m20
  let d02 := m20 * m32 - m30 * m22
  let d13 := m21 * m33 - m31 * m23
  let m10 := m.e10
  let m11 := m.e11
  let m12 := m.e12
  let m13 := m.e13
  let c00 := m11 * d23 - m12 * d13 + m13 * d12
  let c01 := - (m12 * d30 + m13 * d02 + m10 * d23)
  let c02 := m13 * d01 + m10 * d13 + m11 * d30
  let c03 := - (m10 * d12 - m11 * d02 + m12 * d01)
  let m00 := m.e00
  let m01 := m.e01
  let m02 := m.e02
  let m03 := m.e03
  let det := m00 * c00 + m01 * c01 + m02 * c02 + m03 * c03
  if |det| < eps then (0, m)
  else
    let dr := 1 / det
    let n00 := c00 * dr
    let n10 := c01 * dr
    let n20 := c02 * dr
    let n30 := c03 * dr
    let n01 := - (m01 * d23 - m02 * d13 + m03 * d12) * dr
    let n11 := (m02 * d30 + m03 * d02 + m00 * d23) * dr
    let n21 := - (m03 * d01 + m00 * d13 + m01 * d30) * dr
    let n31 := (m00 * d12 - m01 * d02 + m02 * d01) * dr
    let d01 := (m00 * m11 - m10 * m01) * dr
    let d12 := (m01 * m12 - m11 * m02) * dr
    let d23 := (m02 * m13 - m12 * m03) * dr
    let d30 := (m03 * m10 - m13 * m00) * dr
    let d02 := (m00 * m12 - m10 * m02) * dr
    let d13 := (m01 * m13 - m11 * m03) * dr
    let n02 := m31 * d23 - m32 * d13 + m33 * d12
    let n12 := - (m32 * d30 + m33 * d02 + m30 * d23)
    let n22 := m33 * d01 + m30 * d13 + m31 * d30
    let n32 := - (m30 * d12 - m31 * d02 + m32 * d01)
    let n03 := - (m21 * d23 - m22 * d13 + m23 * d12)
    let n13 := m22 * d30 + m23 * d02 + m20 * d23
    let n23 := - (m23 * d01 + m20 * d13 + m21 * d30)
    let n33 := m20 * d12 - m21 * d02 + m22 * d01
    (1, ⟨n00, n01, n02, n03, n10, n11, n12, n13,
         n20, n21, n22, n23, n30, n31, n32, n33⟩)

/-- The all-zero matrix (a concrete singular input). -/
def mZero : Mat4 := ⟨0, 0, 0, 0, 0, 0, 0, 0, 0, 0, 0, 0, 0, 0, 0, 0⟩

/-! Auxiliary facts for the claim theorems. -/

theorem gl0_clamp_lt (u : Nat) : GL0.clamp u < 2 ^ 32 := by
  rw [gl0_clamp_eq]
  exact Nat.mod_lt _ (Nat.two_pow_pos 32)

theorem concat16_eq (lo hi : Nat) (hlo : lo < 2 ^ 16) :
    (hi <<< 16) ||| (lo &&& 0xffff) = hi * 2 ^ 16 + lo := by
  have hmask : lo &&& 0xffff = lo := by
    have h16 : (0xffff : Nat) = 2 ^ 16 - 1 := by norm_num
    rw [h16, Nat.and_pow_two_sub_one_of_lt_two_pow hlo]
  rw [hmask, Nat.shiftLeft_eq, Nat.mul_comm hi]
  exact (Nat.mul_add_lt_is_or hlo hi).symm

theorem concat16_lt (lo hi : Nat) (hlo : lo < 2 ^ 16) (hhi : hi < 2 ^ 16) :
    hi * 2 ^ 16 + lo < 2 ^ 32 := by
  have h1 : hi * 2 ^ 16 ≤ (2 ^ 16 - 1) * 2 ^ 16 :=
    Nat.mul_le_mul_right _ (by omega)
  calc hi * 2 ^ 16 + lo ≤ (2 ^ 16 - 1) * 2 ^ 16 + lo := by omega
    _ < (2 ^ 16 - 1) * 2 ^ 16 + 2 ^ 16 := by omega
    _ = 2 ^ 32 := by norm_num

/-- The example narrow draw stream of the specification: 0x1234 first,
    0x5678 second, zeros afterwards. -/
def exDraws : Nat → Nat := fun i => if i = 0 then 0x1234 else if i = 1 then 0x5678 else 0

/-! Claim theorems. -/

/-- C1: for every four-lane state, one generator call of X256PP / X128PP /
    GL0::PRNG returns rotate_left(lane0 + lane3, R1) + lane0 reduced mod
    2^W and replaces the state with the canonical xoshiro successor, using
    (R1, S, R2) = (23, 17, 45) at W = 64 and (7, 9, 11) at W = 32. -/
theorem prng_generator_step_canonical (s : RState) :
    X256PP.next s = (outW 64 23 s, stepW 64 17 45 s) ∧
    X128PP.next s = (outW 32 7 s, stepW 32 9 11 s) ∧
    GL0.next s = (outW 32 7 s, stepW 32 9 11 s) :=
  ⟨x256_next_eq s, x128_next_eq s, gl0_next_eq s⟩

/-- C2: the jump and long_jump loops compute exactly the specification's
    algorithm: starting from a zero accumulator, scan the four coefficient
    words bit 0..W-1 least-significant first, xor the current evolving
    state (step^[k] of the original) into the accumulator when the bit is
    set, advance the state by one discarded generator call every iteration,
    and finally replace the state with the accumulator. -/
theorem prng_jump_algorithm (s : RState) :
    X256PP.jump s = specJump X256PP.step 64 X256PP.jtab s ∧
    X256PP.long_jump s = specJump X256PP.step 64 X256PP.ljtab s ∧
    X128PP.jump s = specJump X128PP.step 32 X128PP.jtab s ∧
    X128PP.long_jump s = specJump X128PP.step 32 X128PP.ljtab s ∧
    GL0.jump s = specJump GL0.step 32 GL0.jtab s ∧
    GL0.long_jump s = specJump GL0.step 32 GL0.ljtab s :=
  ⟨jumpEngine_spec X256PP.step 64 _ _ _ _ s, jumpEngine_spec X256PP.step 64 _ _ _ _ s,
   jumpEngine_spec X128PP.step 32 _ _ _ _ s, jumpEngine_spec X128PP.step 32 _ _ _ _ s,
   jumpEngine_spec GL0.step 32 _ _ _ _ s, jumpEngine_spec GL0.step 32 _ _ _ _ s⟩

/-- C4: for every seed (zero included), the splitmix seed expansion of
    X256PP::init, X128PP::seed and GL0::PRNG::seed produces a state whose
    four lanes are not simultaneously zero. -/
theorem prng_seed_state_nonzero (seed : Nat) :
    X256PP.initState seed ≠ zeroS ∧ X128PP.seedState seed ≠ zeroS ∧
    GL0.seedState seed ≠ zeroS :=
  ⟨x256_init_ne_zero seed, x128_seed_ne_zero seed, gl0_seed_ne_zero seed⟩

/-- C5 (as stated, refuted): with narrow draws 0x1234 then 0x5678 the
    X128PP entropy importer's first lane is mix(0x56781234), which differs
    from the documented raw concatenation 0x56781234. -/
theorem x128_import_lane_not_concat :
    (X128PP.initNarrow exDraws).1 ≠ 0x56781234 := by decide

/-- C5 (amended): from a source narrower than 32 bits, each lane is
    assembled from two consecutive draws as the concatenation
    hi * 2^16 + lo (first draw in the low half, second shifted into the
    high half); GL0::PRNG stores this word directly as the lane, while
    X128PP stores mix of this word. -/
theorem prng_entropy_import_narrow (f : Nat → Nat)
    (h0 : f 0 < 2 ^ 16) (h1 : f 1 < 2 ^ 16) (h2 : f 2 < 2 ^ 16) (h3 : f 3 < 2 ^ 16)
    (h4 : f 4 < 2 ^ 16) (h5 : f 5 < 2 ^ 16) (h6 : f 6 < 2 ^ 16) (h7 : f 7 < 2 ^ 16) :
    GL0.initNarrow f =
      (f 1 * 2 ^ 16 + f 0, f 3 * 2 ^ 16 + f 2, f 5 * 2 ^ 16 + f 4, f 7 * 2 ^ 16 + f 6) ∧
    X128PP.initNarrow f =
      (X128PP.mix (f 1 * 2 ^ 16 + f 0), X128PP.mix (f 3 * 2 ^ 16 + f 2),
       X128PP.mix (f 5 * 2 ^ 16 + f 4), X128PP.mix (f 7 * 2 ^ 16 + f 6)) := by
  constructor
  · simp only [GL0.initNarrow, concat16_eq _ _ h0, concat16_eq _ _ h2,
      concat16_eq _ _ h4, concat16_eq _ _ h6, gl0_clamp_eq]
    rw [Nat.mod_eq_of_lt (concat16_lt _ _ h0 h1), Nat.mod_eq_of_lt (concat16_lt _ _ h2 h3),
      Nat.mod_eq_of_lt (concat16_lt _ _ h4 h5), Nat.mod_eq_of_lt (concat16_lt _ _ h6 h7)]
  · simp only [X128PP.initNarrow, concat16_eq _ _ h0, concat16_eq _ _ h2,
      concat16_eq _ _ h4, concat16_eq _ _ h6]

theorem prng_entropy_import_narrow_witness :
    (exDraws 0 < 2 ^ 16 ∧ exDraws 1 < 2 ^ 16 ∧ exDraws 2 < 2 ^ 16 ∧ exDraws 3 < 2 ^ 16 ∧
     exDraws 4 < 2 ^ 16 ∧ exDraws 5 < 2 ^ 16 ∧ exDraws 6 < 2 ^ 16 ∧ exDraws 7 < 2 ^ 16) ∧
    (GL0.initNarrow exDraws =
      (exDraws 1 * 2 ^ 16 + exDraws 0, exDraws 3 * 2 ^ 16 + exDraws 2,
       exDraws 5 * 2 ^ 16 + exDraws 4, exDraws 7 * 2 ^ 16 + exDraws 6) ∧
     X128PP.initNarrow exDraws =
      (X128PP.mix (exDraws 1 * 2 ^ 16 + exDraws 0), X128PP.mix (exDraws 3 * 2 ^ 16 + exDraws 2),
       X128PP.mix (exDraws 5 * 2 ^ 16 + exDraws 4), X128PP.mix (exDraws 7 * 2 ^ 16 + exDraws 6))) :=
  ⟨by decide,
   prng_entropy_import_narrow exDraws (by decide) (by decide) (by decide) (by decide)
     (by decide) (by decide) (by decide) (by decide)⟩

/-- C6: jump and long_jump commute with the single-step generator: for
    every W-bit state and every N, applying jump and then N generator
    calls gives the same state as N generator calls and then jump. -/
theorem prng_jump_step_commute :
    (∀ s : RState, inBW 64 s → ∀ N : Nat,
      X256PP.jump (X256PP.step^[N] s) = X256PP.step^[N] (X256PP.jump s) ∧
      X256PP.long_jump (X256PP.step^[N] s) = X256PP.step^[N] (X256PP.long_jump s)) ∧
    (∀ s : RState, inBW 32 s → ∀ N : Nat,
      X128PP.jump (X128PP.step^[N] s) = X128PP.step^[N] (X128PP.jump s) ∧
      X128PP.long_jump (X128PP.step^[N] s) = X128PP.step^[N] (X128PP.long_jump s)) ∧
    (∀ s : RState, inBW 32 s → ∀ N : Nat,
      GL0.jump (GL0.step^[N] s) = GL0.step^[N] (GL0.jump s) ∧
      GL0.long_jump (GL0.step^[N] s) = GL0.step^[N] (GL0.long_jump s)) := by
  refine ⟨fun s hs N => ⟨?_, ?_⟩, fun s hs N => ⟨?_, ?_⟩, fun s hs N => ⟨?_, ?_⟩⟩
  · exact jumpEngine_comm_iterate X256PP.step 64 _ _ _ _
      x256_step_inB x256_step_linear x256_step_zero hs N
  · exact jumpEngine_comm_iterate X256PP.step 64 _ _ _ _
      x256_step_inB x256_step_linear x256_step_zero hs N
  · exact jumpEngine_comm_iterate X128PP.step 32 _ _ _ _
      x128_step_inB x128_step_linear x128_step_zero hs N
  · exact jumpEngine_comm_iterate X128PP.step 32 _ _ _ _
      x128_step_inB x128_step_linear x128_step_zero hs N
  · exact jumpEngine_comm_iterate GL0.step 32 _ _ _ _
      gl0_step_inB gl0_step_linear gl0_step_zero hs N
  · exact jumpEngine_comm_iterate GL0.step 32 _ _ _ _
      gl0_step_inB gl0_step_linear gl0_step_zero hs N

theorem prng_jump_step_commute_witness :
    inBW 64 (1, 2, 3, 4) ∧
    X256PP.jump (X256PP.step^[1] (1, 2, 3, 4)) = X256PP.step^[1] (X256PP.jump (1, 2, 3, 4)) :=
  ⟨by decide, (prng_jump_step_commute.1 (1, 2, 3, 4) (by decide) 1).1⟩

/-- C7: every public operation keeps all four lanes below 2^W: the
    generator call, jump and long_jump preserve the invariant, the output
    word is reduced to W bits, and every seeding or entropy-import path
    establishes the invariant. -/
theorem prng_state_invariant :
    (∀ s : RState, inBW 64 s →
      inBW 64 (X256PP.step s) ∧ inBW 64 (X256PP.jump s) ∧ inBW 64 (X256PP.long_jump s)) ∧
    (∀ s : RState, X256PP.out s < 2 ^ 64) ∧
    (∀ seed : Nat, inBW 64 (X256PP.initState seed)) ∧
    (∀ f : Nat → Nat, (∀ i, f i ≤ X256PP.max) → inBW 64 (X256PP.initRandom f)) ∧
    (∀ s : RState, inBW 32 s →
      inBW 32 (X128PP.step s) ∧ inBW 32 (X128PP.jump s) ∧ inBW 32 (X128PP.long_jump s)) ∧
    (∀ s : RState, X128PP.out s < 2 ^ 32) ∧
    (∀ sd : Nat, inBW 32 (X128PP.seedState sd)) ∧
    (∀ f : Nat → Nat, inBW 32 (X128PP.initNarrow f) ∧ inBW 32 (X128PP.initWide f)) ∧
    (∀ s : RState, inBW 32 s →
      inBW 32 (GL0.step s) ∧ inBW 32 (GL0.jump s) ∧ inBW 32 (GL0.long_jump s)) ∧
    (∀ s : RState, GL0.out s < 2 ^ 32) ∧
    (∀ sd : Nat, inBW 32 (GL0.seedState sd)) ∧
    (∀ f : Nat → Nat, inBW 32 (GL0.initNarrow f) ∧ inBW 32 (GL0.initWide f)) := by
  refine ⟨?_, ?_, ?_, ?_, ?_, ?_, ?_, ?_, ?_, ?_, ?_, ?_⟩
  · intro s hs
    exact ⟨x256_step_inB s hs,
      jumpEngine_inB X256PP.step 64 _ _ _ _ x256_step_inB hs,
      jumpEngine_inB X256PP.step 64 _ _ _ _ x256_step_inB hs⟩
  · intro s
    rw [x256_out_eq]
    exact outW_lt 64 23 s
  · intro seed
    exact ⟨x256_mix_lt _, x256_mix_lt _, x256_mix_lt _, x256_mix_lt _⟩
  · intro f hf
    have hb : ∀ i, f i < 2 ^ 64 := fun i =>
      Nat.lt_of_le_of_lt (hf i) (by norm_num [X256PP.max, X256PP.result_max])
    exact ⟨hb 0, hb 1, hb 2, hb 3⟩
  · intro s hs
    exact ⟨x128_step_inB s hs,
      jumpEngine_inB X128PP.step 32 _ _ _ _ x128_step_inB hs,
      jumpEngine_inB X128PP.step 32 _ _ _ _ x128_step_inB hs⟩
  · intro s
    rw [x128_out_eq]
    exact outW_lt 32 7 s
  · intro sd
    exact ⟨x128_mix_lt _, x128_mix_lt _, x128_mix_lt _, x128_mix_lt _⟩
  · intro f
    exact ⟨⟨x128_mix_lt _, x128_mix_lt _, x128_mix_lt _, x128_mix_lt _⟩,
      ⟨x128_mix_lt _, x128_mix_lt _, x128_mix_lt _, x128_mix_lt _⟩⟩
  · intro s hs
    exact ⟨gl0_step_inB s hs,
      jumpEngine_inB GL0.step 32 _ _ _ _ gl0_step_inB hs,
      jumpEngine_inB GL0.step 32 _ _ _ _ gl0_step_inB hs⟩
  · intro s
    rw [gl0_out_eq]
    exact outW_lt 32 7 s
  · intro sd
    exact ⟨gl0_mix_lt _, gl0_mix_lt _, gl0_mix_lt _, gl0_mix_lt _⟩
  · intro f
    exact ⟨⟨gl0_clamp_lt _, gl0_clamp_lt _, gl0_clamp_lt _, gl0_clamp_lt _⟩,
      ⟨gl0_clamp_lt _, gl0_clamp_lt _, gl0_clamp_lt _, gl0_clamp_lt _⟩⟩

theorem prng_state_invariant_witness :
    inBW 64 (1, 2, 3, 4) ∧ inBW 64 (X256PP.jump (1, 2, 3, 4)) :=
  ⟨by decide, (prng_state_invariant.1 (1, 2, 3, 4) (by decide)).2.1⟩

/-- C8: min() is 0 and max() is 2^W - 1 for each width, and every output
    word lies in [0, max]. -/
theorem prng_min_max_bounds :
    X256PP.min = 0 ∧ X256PP.max = 2 ^ 64 - 1 ∧
    (∀ s : RState, X256PP.out s ≤ X256PP.max) ∧
    X128PP.min = 0 ∧ X128PP.max = 2 ^ 32 - 1 ∧
    (∀ s : RState, X128PP.out s ≤ X128PP.max) ∧
    GL0.min = 0 ∧ GL0.max = 2 ^ 32 - 1 ∧
    (∀ s : RState, GL0.out s ≤ GL0.max) := by
  have h256 : X256PP.max = 2 ^ 64 - 1 := by norm_num [X256PP.max, X256PP.result_max]
  have h128 : X128PP.max = 2 ^ 32 - 1 := by norm_num [X128PP.max, X128PP.result_max]
  have hgl0 : GL0.max = 2 ^ 32 - 1 := by norm_num [GL0.max, GL0.result_max]
  refine ⟨rfl, h256, ?_, rfl, h128, ?_, rfl, hgl0, ?_⟩
  · intro s
    rw [h256, x256_out_eq]
    exact Nat.le_pred_of_lt (outW_lt 64 23 s)
  · intro s
    rw [h128, x128_out_eq]
    exact Nat.le_pred_of_lt (outW_lt 32 7 s)
  · intro s
    rw [hgl0, gl0_out_eq]
    exact Nat.le_pred_of_lt (outW_lt 32 7 s)

/-- C9: the two 32-bit revisions are step-equivalent: one generator call of
    X128PP and GL0::PRNG agrees on output and successor state for every
    state, their jump and long_jump coefficient tables are identical and
    the jump operations map every state to the same result; only the
    seed-mixing functions differ (triple32inc versus triple32). -/
theorem x128_gl0_step_equivalent (s : RState) :
    X128PP.next s = GL0.next s ∧
    X128PP.jump s = GL0.jump s ∧
    X128PP.long_jump s = GL0.long_jump s ∧
    X128PP.jtab = GL0.jtab ∧ X128PP.ljtab = GL0.ljtab ∧
    X128PP.mix 0 ≠ GL0.mix 0 := by
  have hstep : X128PP.step = GL0.step :=
    funext fun t => (x128_step_eq t).trans (gl0_step_eq t).symm
  refine ⟨(x128_next_eq s).trans (gl0_next_eq s).symm, ?_, ?_, rfl, rfl, by decide⟩
  · show jumpEngine X128PP.step 32 X128PP.jtab s = jumpEngine GL0.step 32 GL0.jtab s
    rw [hstep]
    rfl
  · show jumpEngine X128PP.step 32 X128PP.ljtab s = jumpEngine GL0.step 32 GL0.ljtab s
    rw [hstep]
    rfl

/-- C10: whenever invert_4x4 reports a singular matrix (return value 0),
    the matrix argument is returned completely unmodified. -/
theorem minv4_singular_unmodified (eps : ℚ) (m : Mat4)
    (h : (invert_4x4 eps m).1 = 0) : (invert_4x4 eps m).2 = m := by
  simp only [invert_4x4] at h ⊢
  split
  · rfl
  · next hc =>
    rw [if_neg hc] at h
    simp at h

theorem minv4_singular_unmodified_witness :
    (invert_4x4 1 mZero).1 = 0 ∧ (invert_4x4 1 mZero).2 = mZero :=
  ⟨by norm_num [invert_4x4, mZero],
   minv4_singular_unmodified 1 mZero (by norm_num [invert_4x4, mZero])⟩
